import Mathlib

/-!
# com.redhat.machine: the `io.systemd.sysinfo` service (`src/main.c`)

A shallow embedding of `src/main.c` and the properties of its behaviour.

Modelling conventions.

* A C string is the list of its characters before the terminating NUL
  (`CStr`); one list element stands for one C `char`.  A buffer filled by
  `fgets` may hold NUL characters read from the file; `cstr` gives the C
  string that the string functions see in such a buffer.
* A pointer into a string is an offset.  Moving a pointer past the
  terminator of its string is a `Fault`; the functions that do pointer
  arithmetic live in `Except Fault`.
* A `char *` result that may be `NULL` is an `Option CStr`.
* Heap allocation (`calloc`, `strdup`, `strndup`) is assumed to succeed.
* File descriptors and C integers are `Int`; pointers to opaque library
  objects are `Nat` addresses with `0` for `NULL`.
* The kernel, the C library and libvarlink are the environment: what they
  return is an input of the model.
-/

namespace Machine

/-! ## C strings -/

deriving instance DecidableEq for Except

/-- The characters of a C string, terminator excluded. -/
abbrev CStr := List Char

/-- Why a run of the model stops without a result: undefined behaviour in
the C code, or the iteration bound of the model itself. -/
inductive Fault where
  | out_of_bounds
  | out_of_fuel
  deriving DecidableEq, Repr

/-- The C string held in a character buffer: everything before the first NUL. -/
def cstr (buf : List Char) : CStr :=
  buf.takeWhile (fun c => c ≠ Char.ofNat 0)

/-- Pointer addition `s + k`: valid up to and including the terminator. -/
def ptr_add (s : CStr) (k : Nat) : Except Fault CStr :=
  if k ≤ s.length then .ok (s.drop k) else .error Fault.out_of_bounds

/-- The offset `strrchr(s, c) - s` of the last `c` in `s`, `none` for `NULL`. -/
def strrchr : CStr → Char → Option Nat
  | [], _ => none
  | x :: xs, c =>
    match strrchr xs c with
    | some i => some (i + 1)
    | none => if x = c then some 0 else none

/-- The copy `strndup(s, n)`.  The length is a `ptrdiff_t` converted to
`size_t`: a negative one becomes larger than any string. -/
def strndup (s : CStr) (n : Int) : CStr :=
  if n < 0 then s else s.take n.toNat

/-- The copy `strdup(s)`. -/
def strdup (s : CStr) : CStr := s

/-- The test `strncmp(s, t, n) == 0`. -/
def strncmp_eq (s t : CStr) (n : Nat) : Bool :=
  s.take n == t.take n

/-- The function `unquote` of `main.c`.  The offset of `s` itself is 0, so
`p == s` is `p = 0` and `p - 1 - s` is `p - 1 - 0`. -/
def unquote (s : CStr) : Except Fault (Option CStr) :=
  if s.head? = some '"' then
    match strrchr s '"' with
    | none => .ok none
    | some p =>
      if p = 0 then .ok none
      else do
        let s1 ← ptr_add s 1
        .ok (some (strndup s1 ((p : Int) - 1 - 0)))
  else
    match strrchr s '\n' with
    | some p => .ok (some (strndup s ((p : Int) - 0)))
    | none => .ok (some (strdup s))

/-! ## Streams -/

/-- The characters `fgets` stores: at most `k` of them, stopping after a
newline or at the end of the stream; with the rest of the stream. -/
def fgets_chars : Nat → List Char → List Char × List Char
  | 0, f => ([], f)
  | _ + 1, [] => ([], [])
  | k + 1, c :: f =>
    if c = '\n' then ([c], f)
    else ((c :: (fgets_chars k f).1), (fgets_chars k f).2)

/-- The call `fgets(buf, size, f)`: `none` for `NULL` (end of stream with
nothing read), otherwise the buffer contents and the rest of the stream. -/
def fgets (size : Nat) (f : List Char) : Option (List Char × List Char) :=
  match f with
  | [] => none
  | _ :: _ => some (fgets_chars (size - 1) f)

/-! ## The release-metadata probe -/

/-- The four string variables `name`, `id`, `variant`, `version`. -/
structure OsRelease where
  name : Option CStr
  id : Option CStr
  variant : Option CStr
  version : Option CStr
  deriving DecidableEq, Repr

/-- The four variables when each holds `NULL`. -/
def all_null : OsRelease := ⟨none, none, none, none⟩

/-- The body of the `while` loop of `os_release` for one buffer `line`.  The
string functions see the C string `cstr line` in the buffer, and
`line + 5` is a pointer into that string. -/
def os_release_line (line : List Char) (st : OsRelease) : Except Fault OsRelease :=
  if strncmp_eq (cstr line) "NAME=".toList 5 then do
    let v ← ptr_add (cstr line) 5
    let name ← unquote v
    .ok { st with name := name }
  else if strncmp_eq (cstr line) "ID=".toList 3 then do
    let v ← ptr_add (cstr line) 3
    let id ← unquote v
    .ok { st with id := id }
  else if strncmp_eq (cstr line) "VARIANT=".toList 8 then do
    let v ← ptr_add (cstr line) 8
    let variant ← unquote v
    .ok { st with variant := variant }
  else if strncmp_eq (cstr line) "VERSION_ID=".toList 11 then do
    let v ← ptr_add (cstr line) 11
    let version ← unquote v
    .ok { st with version := version }
  else .ok st

/-- The loop `while (fgets(line, sizeof(line), f))` of `os_release`, with
`sizeof(line) = 4096`, for at most `fuel` iterations. -/
def os_release_loop : Nat → List Char → OsRelease → Except Fault OsRelease
  | 0, _, _ => .error Fault.out_of_fuel
  | fuel + 1, f, st =>
    match fgets 4096 f with
    | none => .ok st
    | some (line, rest) => do
      let st1 ← os_release_line line st
      os_release_loop fuel rest st1

/-- The function `os_release` of `main.c`.  `file` is what `fopen` finds:
the `errno` of a failure or the content of `/usr/lib/os-release`; `out` is
what the four result pointers point to on entry.  The result is the return
value and what they point to on return. -/
def os_release (file : Except Int (List Char)) (out : OsRelease) :
    Except Fault (Int × OsRelease) :=
  match file with
  | .error errno => .ok (-errno, out)
  | .ok f => do
    let st ← os_release_loop (f.length + 1) f all_null
    .ok (0, st)

/-! ## The virtualization probe -/

/-- The function `detect_virt` of `main.c`.  `pipe` is what `popen` gives:
the `errno` of a failure or the output of `systemd-detect-virt`; `namep` is
what the result pointer points to on entry. -/
def detect_virt (pipe : Except Int (List Char)) (namep : Option CStr) :
    Except Fault (Int × Option CStr) :=
  match pipe with
  | .error errno => .ok (-errno, namep)
  | .ok f =>
    match fgets 64 f with
    | some (name, _) => do
      let v ← unquote (cstr name)
      .ok (0, v)
    | none => .ok (0, namep)

/-! ## The reply -/

/-- A libvarlink value, as far as `main.c` builds one. -/
inductive VarlinkValue where
  | string : CStr → VarlinkValue
  | object : List (String × VarlinkValue) → VarlinkValue

/-- A libvarlink object: its fields in insertion order. -/
abbrev VarlinkObject := List (String × VarlinkValue)

/-- The call `varlink_object_new`. -/
def varlink_object_new : VarlinkObject := []

/-- Setting a field: a field of the same name is replaced. -/
def varlink_object_set (o : VarlinkObject) (field : String) (v : VarlinkValue) :
    VarlinkObject :=
  o.filter (fun kv => kv.1 != field) ++ [(field, v)]

/-- The call `varlink_object_set_string`. -/
def varlink_object_set_string (o : VarlinkObject) (field : String) (s : CStr) :
    VarlinkObject :=
  varlink_object_set o field (VarlinkValue.string s)

/-- The call `varlink_object_set_object`. -/
def varlink_object_set_object (o : VarlinkObject) (field : String) (v : VarlinkObject) :
    VarlinkObject :=
  varlink_object_set o field (VarlinkValue.object v)

/-- The value of a field of an object, if the object has the field. -/
def varlink_object_get (o : VarlinkObject) (field : String) : Option VarlinkValue :=
  (o.find? (fun kv => kv.1 == field)).map (fun kv => kv.2)

/-- The fields of `struct utsname` that `main.c` reads. -/
structure Utsname where
  release : CStr
  nodename : CStr
  deriving DecidableEq, Repr

/-- What the system answers during one call of the method. -/
structure Probes where
  os_release_file : Except Int (List Char)
  detect_virt_pipe : Except Int (List Char)
  uname : Utsname

/-- The `if (v) varlink_object_set_string(o, field, v)` of `main.c`. -/
def set_string_if (o : VarlinkObject) (field : String) (v : Option CStr) : VarlinkObject :=
  match v with
  | some s => varlink_object_set_string o field s
  | none => o

/-- The method `io_systemd_sysinfo_GetInfo` of `main.c`: the reply object it
hands to `varlink_call_reply`. -/
def io_systemd_sysinfo_GetInfo (env : Probes) : Except Fault VarlinkObject := do
  let rel ← os_release env.os_release_file all_null
  let virt ← detect_virt env.detect_virt_pipe none
  let u := env.uname
  let system := varlink_object_new
  let virtualization := varlink_object_new
  let reply := varlink_object_new
  let system := set_string_if system "name" rel.2.name
  let system := set_string_if system "id" rel.2.id
  let system := set_string_if system "variant" rel.2.variant
  let system := set_string_if system "version" rel.2.version
  let system := varlink_object_set_string system "kernel_version" u.release
  let virtualization := set_string_if virtualization "name" virt.2
  let reply := varlink_object_set_string reply "hostname" u.nodename
  let reply := varlink_object_set_object reply "system" system
  let reply := varlink_object_set_object reply "virtualization" virtualization
  .ok reply

/-! ## The manager -/

/-- The `Manager` of `main.c`: the server pointer and the two descriptors. -/
structure Manager where
  server : Nat
  epoll_fd : Int
  signal_fd : Int
  deriving DecidableEq, Repr

/-- A release performed by `manager_free`. -/
inductive Release where
  | close (fd : Int)
  | varlink_server_free (server : Nat)
  | free (m : Manager)
  deriving DecidableEq, Repr

/-- The function `manager_free` of `main.c`: the releases it performs, in order. -/
def manager_free (m : Manager) : List Release :=
  (if m.epoll_fd ≥ 0 then [Release.close m.epoll_fd] else []) ++
  (if m.signal_fd ≥ 0 then [Release.close m.signal_fd] else []) ++
  (if m.server ≠ 0 then [Release.varlink_server_free m.server] else []) ++
  [Release.free m]

/-- The function `manager_freep` of `main.c`; `none` is a `NULL` manager. -/
def manager_freep (mp : Option Manager) : List Release :=
  match mp with
  | some m => manager_free m
  | none => []

/-- The function `manager_new` of `main.c`: the return value, the manager
stored through `mp`, and the releases of the scope exit, where the local
pointer has been reset to `NULL`. -/
def manager_new : Int × Manager × List Release :=
  let m : Manager := { server := 0, epoll_fd := 0, signal_fd := 0 }
  let m := { m with epoll_fd := -1 }
  let m := { m with signal_fd := -1 }
  (0, m, manager_freep none)

/-! ## The event loop -/

/-- The exit status `EXIT_SUCCESS`. -/
def EXIT_SUCCESS : Int := 0
/-- The exit status `EXIT_FAILURE`. -/
def EXIT_FAILURE : Int := 1
/-- The error number `EINTR` on Linux. -/
def EINTR : Int := 4
/-- The error number `EIO` on Linux. -/
def EIO : Int := 5
/-- The error number `EPIPE` on Linux. -/
def EPIPE : Int := 32
/-- The signal number `SIGINT` on Linux. -/
def SIGINT : Int := 2
/-- The signal number `SIGTERM` on Linux. -/
def SIGTERM : Int := 15
/-- The size `sizeof(struct signalfd_siginfo)`. -/
def sizeof_signalfd_siginfo : Int := 128

/-- What the system reports in one turn of the loop: the return value of
`epoll_wait` with `errno` and the `data.ptr` of the event, and what the
source serviced afterwards answers: the return value of
`varlink_server_process_events`, or the return value of `read` on the
signal descriptor with the `ssi_signo` it stored. -/
structure Wake where
  n : Int
  errno : Int
  ptr : Nat
  process_events : Int
  read_size : Int
  ssi_signo : Nat
  deriving DecidableEq, Repr

/-- The function `read_signal` of `main.c`, given what `read` returned and
the `ssi_signo` (a `uint32_t`) in the record. -/
def read_signal (size : Int) (ssi_signo : Nat) : Int :=
  if size ≠ sizeof_signalfd_siginfo then - EIO else (ssi_signo : Int)

/-- A call the loop makes while it services a source. -/
inductive Call where
  | varlink_server_process_events
  | fprintf_control (r : Int)
  | read_signal
  deriving DecidableEq, Repr

/-- The outcome of one turn: the calls made, and the exit status if `main`
returns (`none`: the loop goes back to `epoll_wait`). -/
structure Turn where
  calls : List Call
  exit : Option Int
  deriving DecidableEq, Repr

/-- The body of the `for (;;)` loop of `main`; `server` is `m->server`, the
pointer registered with the transport descriptor, while the signal
descriptor is registered with `NULL`. -/
def main_loop_body (server : Nat) (w : Wake) : Turn :=
  if w.n < 0 then
    if w.errno = EINTR then ⟨[], none⟩
    else ⟨[], some EXIT_FAILURE⟩
  else if w.n = 0 then ⟨[], none⟩
  else if w.ptr = server then
    let r := w.process_events
    if r < 0 then
      if r ≠ - EPIPE then
        ⟨[Call.varlink_server_process_events, Call.fprintf_control r], some EXIT_FAILURE⟩
      else ⟨[Call.varlink_server_process_events, Call.fprintf_control r], none⟩
    else ⟨[Call.varlink_server_process_events], none⟩
  else if w.ptr = 0 then
    let sig := read_signal w.read_size w.ssi_signo
    if sig = SIGTERM ∨ sig = SIGINT then ⟨[Call.read_signal], some EXIT_SUCCESS⟩
    else ⟨[Call.read_signal], some EXIT_FAILURE⟩
  else ⟨[], none⟩

/-- The `for (;;)` loop of `main` over the wakes the system delivers: the
calls made and the exit status, `none` while the loop is still waiting
after the last wake. -/
def main_loop (server : Nat) : List Wake → List Call × Option Int
  | [] => ([], none)
  | w :: ws =>
    match (main_loop_body server w).exit with
    | some code => ((main_loop_body server w).calls, some code)
    | none =>
      ((main_loop_body server w).calls ++ (main_loop server ws).1, (main_loop server ws).2)

/-! ## Vocabulary for the properties of the release-metadata probe -/

/-- The four keys that `os_release` looks for. -/
inductive Key where
  | name
  | id
  | variant
  | version
  deriving DecidableEq, Repr

/-- The characters a line must begin with to be a line of the key: the
string literal that `os_release` compares with. -/
def Key.tag : Key → CStr
  | Key.name => ['N', 'A', 'M', 'E', '=']
  | Key.id => ['I', 'D', '=']
  | Key.variant => ['V', 'A', 'R', 'I', 'A', 'N', 'T', '=']
  | Key.version => ['V', 'E', 'R', 'S', 'I', 'O', 'N', '_', 'I', 'D', '=']

/-- The variable of `os_release` that belongs to a key. -/
def Key.get : Key → OsRelease → Option CStr
  | Key.name, r => r.name
  | Key.id, r => r.id
  | Key.variant, r => r.variant
  | Key.version, r => r.version

/-- Assignment to the variable that belongs to a key. -/
def Key.set : Key → OsRelease → Option CStr → OsRelease
  | Key.name, r, v => { r with name := v }
  | Key.id, r, v => { r with id := v }
  | Key.variant, r, v => { r with variant := v }
  | Key.version, r, v => { r with version := v }

/-- The loop of `os_release` with the fuel that `os_release` gives it. -/
def os_release_run (f : List Char) (st : OsRelease) : Except Fault OsRelease :=
  os_release_loop (f.length + 1) f st

/-- The text made of the lines `ls`, each followed by a newline, and of a
last line `last` without a newline (empty when the text ends in a newline). -/
def text_of (ls : List (List Char)) (last : List Char) : List Char :=
  (ls.map (fun l => l ++ ['\n'])).flatten ++ last

/-! ## Properties of the event loop -/

/-- C1: on a signal-readiness event (an event whose `data.ptr` is `NULL`,
the server pointer being non-null), a complete record carrying SIGINT or
SIGTERM makes `main` return `EXIT_SUCCESS`; a complete record with any other
signal number, and a short or failed read (for which `read_signal` is
`- EIO`), make it return `EXIT_FAILURE`; and whatever wakes would follow, the
loop has ended with that turn, after the single call of `read_signal`. -/
theorem signal_event_exits (server : Nat) (w : Wake) (hs : server ≠ 0)
    (hn : 0 < w.n) (hp : w.ptr = 0) :
    (w.read_size = sizeof_signalfd_siginfo →
      ((w.ssi_signo : Int) = SIGINT ∨ (w.ssi_signo : Int) = SIGTERM) →
      (main_loop_body server w).exit = some EXIT_SUCCESS) ∧
    (w.read_size = sizeof_signalfd_siginfo →
      ¬ ((w.ssi_signo : Int) = SIGINT ∨ (w.ssi_signo : Int) = SIGTERM) →
      (main_loop_body server w).exit = some EXIT_FAILURE) ∧
    (w.read_size ≠ sizeof_signalfd_siginfo →
      read_signal w.read_size w.ssi_signo = - EIO ∧
      (main_loop_body server w).exit = some EXIT_FAILURE) ∧
    (main_loop_body server w).exit ≠ none ∧
    (∀ ws : List Wake,
      main_loop server (w :: ws) = ([Call.read_signal], (main_loop_body server w).exit)) := by
  have hne : ¬ w.ptr = server := by rw [hp]; exact fun h => hs h.symm
  have hz : w.ptr = 0 ↔ True := by simp [hp]
  have h1 : ¬ w.n < 0 := by omega
  have h2 : ¬ w.n = 0 := by omega
  have hbody : main_loop_body server w =
      if read_signal w.read_size w.ssi_signo = SIGTERM ∨
          read_signal w.read_size w.ssi_signo = SIGINT then
        ⟨[Call.read_signal], some EXIT_SUCCESS⟩
      else ⟨[Call.read_signal], some EXIT_FAILURE⟩ := by
    simp only [main_loop_body, h1, h2, hne, hz, if_false, if_true]
  refine ⟨?_, ?_, ?_, ?_, ?_⟩
  · intro hsz hsig
    have hr : read_signal w.read_size w.ssi_signo = (w.ssi_signo : Int) := by
      simp [read_signal, hsz]
    rw [hbody, hr, if_pos (Or.symm hsig)]
  · intro hsz hsig
    have hr : read_signal w.read_size w.ssi_signo = (w.ssi_signo : Int) := by
      simp [read_signal, hsz]
    rw [hbody, hr, if_neg (fun h => hsig (Or.symm h))]
  · intro hsz
    have hr : read_signal w.read_size w.ssi_signo = - EIO := by
      simp [read_signal, hsz]
    refine ⟨hr, ?_⟩
    rw [hbody, hr]
    simp [SIGTERM, SIGINT, EIO]
  · rw [hbody]
    split <;> simp
  · intro ws
    rw [main_loop, hbody]
    by_cases hc : read_signal w.read_size w.ssi_signo = SIGTERM ∨
        read_signal w.read_size w.ssi_signo = SIGINT
    · simp only [if_pos hc]
    · simp only [if_neg hc]

/-- Witness of C1: SIGTERM read completely from the signal descriptor. -/
theorem signal_event_exits_witness :
    (main_loop_body 4096 ⟨1, 0, 0, 0, 128, 15⟩).exit = some EXIT_SUCCESS :=
  (signal_event_exits 4096 ⟨1, 0, 0, 0, 128, 15⟩ (by decide) (by decide) rfl).1
    (by decide) (Or.inr (by decide))

/-- C2: on a transport-readiness event (an event whose `data.ptr` is the
server), the loop goes back to waiting exactly when the result `r` of
`varlink_server_process_events` is non-negative or is `- EPIPE`, and for
every other negative `r` `main` returns `EXIT_FAILURE`.  This holds of the
loop body and of the loop: for such an `r` the loop ends at that turn with
`EXIT_FAILURE` whatever wakes would follow, after the call of
`varlink_server_process_events` and the message on `stderr`; otherwise the
loop passes on to the next wake, and after this wake alone it is still
waiting exactly when `r` is non-negative or `- EPIPE`. -/
theorem transport_event_result (server : Nat) (w : Wake)
    (hn : 0 < w.n) (hp : w.ptr = server) :
    ((0 ≤ w.process_events ∨ w.process_events = - EPIPE) →
      (main_loop_body server w).exit = none) ∧
    ((w.process_events < 0 ∧ w.process_events ≠ - EPIPE) →
      (main_loop_body server w).exit = some EXIT_FAILURE) ∧
    ((main_loop_body server w).exit = none ↔
      (0 ≤ w.process_events ∨ w.process_events = - EPIPE)) ∧
    (∀ ws : List Wake, (0 ≤ w.process_events ∨ w.process_events = - EPIPE) →
      (main_loop server (w :: ws)).2 = (main_loop server ws).2) ∧
    (∀ ws : List Wake, (w.process_events < 0 ∧ w.process_events ≠ - EPIPE) →
      (main_loop server (w :: ws)).2 = some EXIT_FAILURE) ∧
    (∀ ws : List Wake, (w.process_events < 0 ∧ w.process_events ≠ - EPIPE) →
      main_loop server (w :: ws) =
        ([Call.varlink_server_process_events, Call.fprintf_control w.process_events],
          some EXIT_FAILURE)) ∧
    (∀ ws : List Wake, (0 ≤ w.process_events ∨ w.process_events = - EPIPE) →
      main_loop server (w :: ws) =
        ((main_loop_body server w).calls ++ (main_loop server ws).1,
          (main_loop server ws).2)) ∧
    ((main_loop server [w]).2 = none ↔
      (0 ≤ w.process_events ∨ w.process_events = - EPIPE)) := by
  have h1 : ¬ w.n < 0 := by omega
  have h2 : ¬ w.n = 0 := by omega
  have hbody : main_loop_body server w =
      if w.process_events < 0 then
        if w.process_events ≠ - EPIPE then
          ⟨[Call.varlink_server_process_events, Call.fprintf_control w.process_events],
            some EXIT_FAILURE⟩
        else ⟨[Call.varlink_server_process_events,
            Call.fprintf_control w.process_events], none⟩
      else ⟨[Call.varlink_server_process_events], none⟩ := by
    simp only [main_loop_body, h1, h2, hp, if_false, if_true]
  have hcont : (0 ≤ w.process_events ∨ w.process_events = - EPIPE) →
      (main_loop_body server w).exit = none := by
    intro h
    rw [hbody]
    rcases h with h | h
    · rw [if_neg (by omega)]
    · rw [h]; simp [EPIPE]
  have hfail : (w.process_events < 0 ∧ w.process_events ≠ - EPIPE) →
      (main_loop_body server w).exit = some EXIT_FAILURE := by
    intro h
    rw [hbody, if_pos h.1, if_pos h.2]
  have hfailbody : (w.process_events < 0 ∧ w.process_events ≠ - EPIPE) →
      main_loop_body server w =
        ⟨[Call.varlink_server_process_events, Call.fprintf_control w.process_events],
          some EXIT_FAILURE⟩ := by
    intro h
    rw [hbody, if_pos h.1, if_pos h.2]
  have hsplit : ¬ (0 ≤ w.process_events ∨ w.process_events = - EPIPE) →
      (w.process_events < 0 ∧ w.process_events ≠ - EPIPE) := by
    intro hc
    constructor
    · by_contra h; exact hc (Or.inl (by omega))
    · intro h; exact hc (Or.inr h)
  have hloopfail : ∀ ws : List Wake,
      (w.process_events < 0 ∧ w.process_events ≠ - EPIPE) →
      main_loop server (w :: ws) =
        ([Call.varlink_server_process_events, Call.fprintf_control w.process_events],
          some EXIT_FAILURE) := by
    intro ws h
    rw [main_loop, hfailbody h]
  have hloopcont : ∀ ws : List Wake,
      (0 ≤ w.process_events ∨ w.process_events = - EPIPE) →
      main_loop server (w :: ws) =
        ((main_loop_body server w).calls ++ (main_loop server ws).1,
          (main_loop server ws).2) := by
    intro ws h
    rw [main_loop, hcont h]
  refine ⟨hcont, hfail, ⟨?_, hcont⟩, ?_, ?_, hloopfail, hloopcont, ⟨?_, ?_⟩⟩
  · intro hnone
    by_contra hc
    rw [hfail (hsplit hc)] at hnone
    exact absurd hnone (by simp)
  · intro ws h
    rw [hloopcont ws h]
  · intro ws h
    rw [hloopfail ws h]
  · intro hnone
    by_contra hc
    rw [hloopfail [] (hsplit hc)] at hnone
    exact absurd hnone (by simp)
  · intro h
    rw [hloopcont [] h]
    rfl

/-- Witness of C2: the peer disconnected (`- EPIPE`) and the loop goes on;
then the transport reports `-5` and the loop ends with `EXIT_FAILURE`
although SIGTERM would follow. -/
theorem transport_event_result_witness :
    (main_loop_body 4096 ⟨1, 0, 4096, -32, 0, 0⟩).exit = none ∧
    (main_loop 4096 [⟨1, 0, 4096, -5, 0, 0⟩, ⟨1, 0, 0, 0, 128, 15⟩]).2 =
      some EXIT_FAILURE :=
  ⟨(transport_event_result 4096 ⟨1, 0, 4096, -32, 0, 0⟩ (by decide) rfl).1
      (Or.inr (by decide)),
    (transport_event_result 4096 ⟨1, 0, 4096, -5, 0, 0⟩ (by decide) rfl).2.2.2.2.1
      [⟨1, 0, 0, 0, 128, 15⟩] ⟨by decide, by decide⟩⟩

/-- C9: when `epoll_wait` fails with `EINTR` the loop waits again, when it
fails with any other `errno` `main` returns `EXIT_FAILURE`, and when it
reports zero events the loop waits again; in all three cases no source is
serviced (no call is made). -/
theorem wait_result (server : Nat) (w : Wake) :
    ((w.n < 0 ∧ w.errno = EINTR) → main_loop_body server w = ⟨[], none⟩) ∧
    ((w.n < 0 ∧ w.errno ≠ EINTR) → main_loop_body server w = ⟨[], some EXIT_FAILURE⟩) ∧
    (w.n = 0 → main_loop_body server w = ⟨[], none⟩) ∧
    (∀ ws : List Wake, ((w.n < 0 ∧ w.errno = EINTR) ∨ w.n = 0) →
      main_loop server (w :: ws) = main_loop server ws) ∧
    (∀ ws : List Wake, (w.n < 0 ∧ w.errno ≠ EINTR) →
      main_loop server (w :: ws) = ([], some EXIT_FAILURE)) := by
  have a : (w.n < 0 ∧ w.errno = EINTR) → main_loop_body server w = ⟨[], none⟩ := by
    intro h
    simp [main_loop_body, h.1, h.2]
  have b : (w.n < 0 ∧ w.errno ≠ EINTR) →
      main_loop_body server w = ⟨[], some EXIT_FAILURE⟩ := by
    intro h
    simp [main_loop_body, h.1, h.2]
  have c : w.n = 0 → main_loop_body server w = ⟨[], none⟩ := by
    intro h
    simp [main_loop_body, h]
  refine ⟨a, b, c, ?_, ?_⟩
  · intro ws h
    have hb : main_loop_body server w = ⟨[], none⟩ := h.elim a c
    rw [main_loop, hb]
    simp
  · intro ws h
    rw [main_loop, b h]

/-- Witness of C9: an interrupted wait followed by SIGINT. -/
theorem wait_result_witness :
    main_loop 4096 [⟨-1, 4, 0, 0, 0, 0⟩, ⟨1, 0, 0, 0, 128, 2⟩] =
      main_loop 4096 [⟨1, 0, 0, 0, 128, 2⟩] :=
  (wait_result 4096 ⟨-1, 4, 0, 0, 0, 0⟩).2.2.2.1 [⟨1, 0, 0, 0, 128, 2⟩]
    (Or.inl ⟨by decide, by decide⟩)

/-! ## Properties of the manager -/

/-- C8: `manager_new` returns 0 and a manager with a null server and both
descriptors equal to -1, releasing nothing itself; `manager_free`, on any
manager, closes a descriptor exactly when it is a non-negative `epoll_fd`
or `signal_fd` of the manager and frees a server exactly when it is the
non-null server of the manager; so on a freshly created manager it releases
no handle at all, only the manager's own memory. -/
theorem manager_new_empty_manager_free_exact :
    manager_new.1 = 0 ∧
    manager_new.2.1.server = 0 ∧ manager_new.2.1.epoll_fd = -1 ∧
    manager_new.2.1.signal_fd = -1 ∧ manager_new.2.2 = [] ∧
    (∀ (m : Manager) (fd : Int), Release.close fd ∈ manager_free m ↔
      (0 ≤ fd ∧ (fd = m.epoll_fd ∨ fd = m.signal_fd))) ∧
    (∀ (m : Manager) (p : Nat), Release.varlink_server_free p ∈ manager_free m ↔
      (p ≠ 0 ∧ p = m.server)) ∧
    (∀ (m m1 : Manager), Release.free m1 ∈ manager_free m ↔ m1 = m) ∧
    manager_free manager_new.2.1 = [Release.free manager_new.2.1] ∧
    manager_free { manager_new.2.1 with server := 7, signal_fd := 5 } =
      [Release.close 5, Release.varlink_server_free 7,
        Release.free { manager_new.2.1 with server := 7, signal_fd := 5 }] := by
  refine ⟨rfl, rfl, rfl, rfl, rfl, ?_, ?_, ?_, by decide, by decide⟩
  · intro m fd
    unfold manager_free
    by_cases h1 : m.epoll_fd ≥ 0 <;> by_cases h2 : m.signal_fd ≥ 0 <;>
      by_cases h3 : m.server ≠ 0 <;> simp [h1, h2, h3] <;> omega
  · intro m p
    unfold manager_free
    by_cases h1 : m.epoll_fd ≥ 0 <;> by_cases h2 : m.signal_fd ≥ 0 <;>
      by_cases h3 : m.server ≠ 0 <;> simp [h1, h2, h3] <;> omega
  · intro m m1
    unfold manager_free
    by_cases h1 : m.epoll_fd ≥ 0 <;> by_cases h2 : m.signal_fd ≥ 0 <;>
      by_cases h3 : m.server ≠ 0 <;> simp [h1, h2, h3]

/-! ## Properties of `unquote` -/

theorem strrchr_eq_none_iff (s : CStr) (c : Char) : strrchr s c = none ↔ c ∉ s := by
  induction s with
  | nil => simp [strrchr]
  | cons x xs ih =>
    rw [strrchr]
    cases h : strrchr xs c with
    | none =>
      have hx : c ∉ xs := ih.mp h
      by_cases hxc : x = c
      · simp [hxc]
      · have hcx : ¬ c = x := fun e => hxc e.symm
        simp [hxc, hcx, hx]
    | some i =>
      have hx : ¬ c ∉ xs := fun hn => by rw [ih.mpr hn] at h; cases h
      have hx2 : c ∈ xs := by_contra hx
      simp [hx2]

theorem strrchr_append_cons (a b : CStr) (c : Char) (hb : c ∉ b) :
    strrchr (a ++ c :: b) c = some a.length := by
  induction a with
  | nil =>
    have h : strrchr b c = none := (strrchr_eq_none_iff b c).mpr hb
    simp [strrchr, h]
  | cons x xs ih =>
    simp [strrchr, ih]

/-- Every string that holds `c` splits around its last `c`. -/
theorem exists_last_split (s : CStr) (c : Char) (h : c ∈ s) :
    ∃ a b, s = a ++ c :: b ∧ c ∉ b := by
  induction s with
  | nil => cases h
  | cons x xs ih =>
    by_cases hxs : c ∈ xs
    · obtain ⟨a, b, hab, hb⟩ := ih hxs
      exact ⟨x :: a, b, by rw [hab]; rfl, hb⟩
    · have hx : c = x := by
        rcases List.mem_cons.mp h with h1 | h1
        · exact h1
        · exact absurd h1 hxs
      exact ⟨[], xs, by rw [hx]; rfl, hxs⟩

theorem unquote_quoted_split (a b : CStr) (hb : '"' ∉ b) :
    unquote ('"' :: (a ++ '"' :: b)) = .ok (some a) := by
  have h : strrchr ('"' :: (a ++ '"' :: b)) '"' = some (a.length + 1) := by
    rw [strrchr, strrchr_append_cons a b '"' hb]
  have hn : ¬ ((a.length : Int) + 1 - 1 - 0 < 0) := by omega
  have ht : ((a.length : Int) + 1 - 1 - 0).toNat = a.length := by omega
  simp only [unquote, List.head?_cons, if_true, h]
  simp [ptr_add, strndup, bind, Except.bind, hn, ht]

theorem unquote_unmatched (b : CStr) (hb : '"' ∉ b) :
    unquote ('"' :: b) = .ok none := by
  have h0 : strrchr b '"' = none := (strrchr_eq_none_iff b '"').mpr hb
  have h : strrchr ('"' :: b) '"' = some 0 := by
    rw [strrchr, h0]; simp
  simp [unquote, h]

theorem unquote_plain_newline (v : CStr) (h1 : v.head? ≠ some '"') (h2 : '\n' ∉ v) :
    unquote (v ++ ['\n']) = .ok (some v) := by
  have hh : ¬ (v ++ ['\n']).head? = some '"' := by
    cases v with
    | nil => simp
    | cons x xs => simpa using h1
  have h : strrchr (v ++ ['\n']) '\n' = some v.length :=
    strrchr_append_cons v [] '\n' (by simp)
  have hn : ¬ ((v.length : Int) - 0 < 0) := by omega
  have ht : ((v.length : Int) - 0).toNat = v.length := by omega
  simp only [unquote, if_neg hh, h, strndup, if_neg hn, ht]
  simp

theorem unquote_plain (v : CStr) (h1 : v.head? ≠ some '"') (h2 : '\n' ∉ v) :
    unquote v = .ok (some v) := by
  have h : strrchr v '\n' = none := (strrchr_eq_none_iff v '\n').mpr h2
  simp [unquote, h1, h, strdup]

theorem unquote_ok (s : CStr) : ∃ r, unquote s = .ok r := by
  unfold unquote
  split
  · rename_i hq
    split
    · exact ⟨_, rfl⟩
    · split
      · exact ⟨_, rfl⟩
      · have hl : 1 ≤ s.length := by
          cases s with
          | nil => simp at hq
          | cons x xs => simp
        simp [ptr_add, hl, bind, Except.bind]
  · split <;> exact ⟨_, rfl⟩

/-! ## One line of the release metadata -/

theorem cstr_append_of_no_nul (t r : List Char) (ht : ∀ c ∈ t, c ≠ Char.ofNat 0) :
    cstr (t ++ r) = t ++ cstr r := by
  unfold cstr
  apply List.takeWhile_append_of_pos
  intro a ha
  simpa using ht a ha

theorem tag_no_nul (k : Key) : ∀ c ∈ k.tag, c ≠ Char.ofNat 0 := by
  cases k <;> decide

theorem tag_no_newline (k : Key) : '\n' ∉ k.tag := by
  cases k <;> decide

/-- The comparison `strncmp(line, tag, strlen(tag)) == 0` holds exactly when
the buffer begins with the tag. -/
theorem strncmp_tag (k : Key) (line : List Char) :
    strncmp_eq (cstr line) k.tag k.tag.length = true ↔ k.tag <+: line := by
  unfold strncmp_eq
  rw [List.take_length, beq_iff_eq]
  constructor
  · intro h
    have h1 : k.tag <+: cstr line := by
      rw [← h]; exact List.take_prefix _ _
    exact h1.trans ( List.takeWhile_prefix _)
  · rintro ⟨r, rfl⟩
    rw [cstr_append_of_no_nul _ _ (tag_no_nul k)]
    simp

theorem tags_disjoint (k1 k2 : Key) (line : List Char) (h1 : k1.tag <+: line)
    (h2 : k2.tag <+: line) : k1 = k2 := by
  obtain ⟨r, rfl⟩ := h1
  cases k1 <;> cases k2 <;> first | rfl | (exfalso; simp [Key.tag] at h2)

theorem cstr_drop_tag (k : Key) (line : List Char) (h : k.tag <+: line) :
    (cstr line).drop k.tag.length = cstr (line.drop k.tag.length) := by
  obtain ⟨r, rfl⟩ := h
  rw [cstr_append_of_no_nul _ _ (tag_no_nul k)]
  simp

theorem tag_length_le_cstr (k : Key) (line : List Char) (h : k.tag <+: line) :
    k.tag.length ≤ (cstr line).length := by
  obtain ⟨r, rfl⟩ := h
  rw [cstr_append_of_no_nul _ _ (tag_no_nul k)]
  simp

/-- What the loop body does with one buffer: it assigns the unquoted value
to the variable of the key whose tag the buffer begins with, and does
nothing when the buffer begins with no tag. -/
theorem os_release_line_spec (line : List Char) (st : OsRelease) :
    (∃ (k : Key) (v : Option CStr), k.tag <+: line ∧
      unquote (cstr (line.drop k.tag.length)) = .ok v ∧
      os_release_line line st = .ok (k.set st v)) ∨
    ((∀ k : Key, ¬ k.tag <+: line) ∧ os_release_line line st = .ok st) := by
  have key : ∀ k : Key, k.tag <+: line →
      ∃ v, unquote (cstr (line.drop k.tag.length)) = .ok v ∧
        (do
          let s ← ptr_add (cstr line) k.tag.length
          let x ← unquote s
          (Except.ok (k.set st x) : Except Fault OsRelease)) = .ok (k.set st v) := by
    intro k hk
    obtain ⟨v, hv⟩ := unquote_ok (cstr (line.drop k.tag.length))
    refine ⟨v, hv, ?_⟩
    have hl := tag_length_le_cstr k line hk
    simp only [ptr_add, if_pos hl, cstr_drop_tag k line hk, hv, bind, Except.bind]
  have e1 := strncmp_tag Key.name line
  have e2 := strncmp_tag Key.id line
  have e3 := strncmp_tag Key.variant line
  have e4 := strncmp_tag Key.version line
  by_cases h1 : Key.name.tag <+: line
  · left
    obtain ⟨v, hv, hr⟩ := key Key.name h1
    refine ⟨Key.name, v, h1, hv, ?_⟩
    have c1 : strncmp_eq (cstr line) "NAME=".toList 5 = true := e1.mpr h1
    rw [os_release_line, if_pos c1]
    exact hr
  · have c1 : ¬ strncmp_eq (cstr line) "NAME=".toList 5 = true := fun h => h1 (e1.mp h)
    by_cases h2 : Key.id.tag <+: line
    · left
      obtain ⟨v, hv, hr⟩ := key Key.id h2
      refine ⟨Key.id, v, h2, hv, ?_⟩
      have c2 : strncmp_eq (cstr line) "ID=".toList 3 = true := e2.mpr h2
      rw [os_release_line, if_neg c1, if_pos c2]
      exact hr
    · have c2 : ¬ strncmp_eq (cstr line) "ID=".toList 3 = true := fun h => h2 (e2.mp h)
      by_cases h3 : Key.variant.tag <+: line
      · left
        obtain ⟨v, hv, hr⟩ := key Key.variant h3
        refine ⟨Key.variant, v, h3, hv, ?_⟩
        have c3 : strncmp_eq (cstr line) "VARIANT=".toList 8 = true := e3.mpr h3
        rw [os_release_line, if_neg c1, if_neg c2, if_pos c3]
        exact hr
      · have c3 : ¬ strncmp_eq (cstr line) "VARIANT=".toList 8 = true :=
          fun h => h3 (e3.mp h)
        by_cases h4 : Key.version.tag <+: line
        · left
          obtain ⟨v, hv, hr⟩ := key Key.version h4
          refine ⟨Key.version, v, h4, hv, ?_⟩
          have c4 : strncmp_eq (cstr line) "VERSION_ID=".toList 11 = true := e4.mpr h4
          rw [os_release_line, if_neg c1, if_neg c2, if_neg c3, if_pos c4]
          exact hr
        · right
          have c4 : ¬ strncmp_eq (cstr line) "VERSION_ID=".toList 11 = true :=
            fun h => h4 (e4.mp h)
          refine ⟨?_, ?_⟩
          · intro k
            cases k <;> assumption
          · rw [os_release_line, if_neg c1, if_neg c2, if_neg c3, if_neg c4]

theorem os_release_line_ok (line : List Char) (st : OsRelease) :
    ∃ st1, os_release_line line st = .ok st1 := by
  rcases os_release_line_spec line st with ⟨k, v, _, _, h⟩ | ⟨_, h⟩
  · exact ⟨_, h⟩
  · exact ⟨_, h⟩

theorem key_get_set (k k1 : Key) (st : OsRelease) (v : Option CStr) :
    k.get (k1.set st v) = if k = k1 then v else k.get st := by
  cases k <;> cases k1 <;> simp [Key.get, Key.set]

/-- A buffer that does not begin with the tag of `k` leaves the variable of
`k` as it is. -/
theorem os_release_line_keeps (k : Key) (line : List Char) (st : OsRelease)
    (h : ¬ k.tag <+: line) :
    ∃ st1, os_release_line line st = .ok st1 ∧ k.get st1 = k.get st := by
  rcases os_release_line_spec line st with ⟨k1, v, hk1, _, hr⟩ | ⟨_, hr⟩
  · refine ⟨_, hr, ?_⟩
    have hne : ¬ k = k1 := fun e => h (e ▸ hk1)
    rw [key_get_set, if_neg hne]
  · exact ⟨_, hr, rfl⟩

/-- A buffer that begins with the tag of `k` sets the variable of `k` to the
unquoted rest of the buffer. -/
theorem os_release_line_sets (k : Key) (line : List Char) (st : OsRelease)
    (h : k.tag <+: line) :
    ∃ v st1, unquote (cstr (line.drop k.tag.length)) = .ok v ∧
      os_release_line line st = .ok st1 ∧ k.get st1 = v := by
  rcases os_release_line_spec line st with ⟨k1, v, hk1, hv, hr⟩ | ⟨hno, _⟩
  · have e : k1 = k := tags_disjoint k1 k line hk1 h
    subst e
    refine ⟨v, _, hv, hr, ?_⟩
    rw [key_get_set, if_pos rfl]
  · exact absurd h (hno k)

/-! ## Reading the stream buffer by buffer -/

theorem fgets_chars_rest_length (k : Nat) (c : Char) (f : List Char) :
    (fgets_chars (k + 1) (c :: f)).2.length < (c :: f).length := by
  induction k generalizing c f with
  | zero =>
    rw [fgets_chars]
    split
    · simp
    · cases f <;> simp [fgets_chars]
  | succ n ih =>
    rw [fgets_chars]
    split
    · simp
    · cases f with
      | nil => simp [fgets_chars]
      | cons d g =>
        have := ih d g
        simp only [List.length_cons] at this ⊢
        omega

/-- A whole line that fits the buffer is read in one call. -/
theorem fgets_chars_line (k : Nat) (body rest : List Char) (hb : '\n' ∉ body)
    (hl : body.length < k) :
    fgets_chars k (body ++ '\n' :: rest) = (body ++ ['\n'], rest) := by
  induction body generalizing k with
  | nil =>
    cases k with
    | zero => simp at hl
    | succ n => simp [fgets_chars]
  | cons c cs ih =>
    cases k with
    | zero => simp at hl
    | succ n =>
      have hc : ¬ c = '\n' := fun e => hb (by simp [e])
      have hcs : '\n' ∉ cs := fun e => hb (by simp [e])
      have hn : cs.length < n := by simp at hl; omega
      simp [fgets_chars, hc, ih n hcs hn]

/-- A last line without newline that fits the buffer is read in one call. -/
theorem fgets_chars_last (k : Nat) (t : List Char) (hb : '\n' ∉ t) (hl : t.length ≤ k) :
    fgets_chars k t = (t, []) := by
  induction t generalizing k with
  | nil => cases k <;> simp [fgets_chars]
  | cons c cs ih =>
    cases k with
    | zero => simp at hl
    | succ n =>
      have hc : ¬ c = '\n' := fun e => hb (by simp [e])
      have hcs : '\n' ∉ cs := fun e => hb (by simp [e])
      have hn : cs.length ≤ n := by simp at hl; omega
      simp [fgets_chars, hc, ih n hcs hn]

/-- A buffer is full after `k` characters without newline: the call returns
them and leaves the rest of the line in the stream. -/
theorem fgets_chars_full (k : Nat) (a rest : List Char) (ha : '\n' ∉ a)
    (hl : a.length = k) :
    fgets_chars k (a ++ rest) = (a, rest) := by
  induction a generalizing k with
  | nil =>
    simp at hl
    subst hl
    simp [fgets_chars]
  | cons c cs ih =>
    cases k with
    | zero => simp at hl
    | succ n =>
      have hc : ¬ c = '\n' := fun e => ha (by simp [e])
      have hcs : '\n' ∉ cs := fun e => ha (by simp [e])
      have hn : cs.length = n := by simp at hl; omega
      simp [fgets_chars, hc, ih n hcs hn]

/-- A text that ends in a newline is read the same way whatever follows it,
and what `fgets` leaves of it again is empty or ends in a newline. -/
theorem fgets_chars_boundary (k : Nat) (q post : List Char) :
    fgets_chars k ((q ++ ['\n']) ++ post) =
      ((fgets_chars k (q ++ ['\n'])).1, (fgets_chars k (q ++ ['\n'])).2 ++ post) ∧
    ((fgets_chars k (q ++ ['\n'])).2 = [] ∨
      ∃ q1, (fgets_chars k (q ++ ['\n'])).2 = q1 ++ ['\n']) := by
  induction k generalizing q with
  | zero =>
    refine ⟨by simp [fgets_chars], Or.inr ⟨q, by simp [fgets_chars]⟩⟩
  | succ n ih =>
    cases q with
    | nil => simp [fgets_chars]
    | cons c cs =>
      by_cases hc : c = '\n'
      · subst hc
        simp [fgets_chars]
      · obtain ⟨h1, h2⟩ := ih cs
        have u : ∀ f : List Char, fgets_chars (n + 1) (c :: f) =
            (c :: (fgets_chars n f).1, (fgets_chars n f).2) := by
          intro f
          rw [fgets_chars, if_neg hc]
        have e1 : ((c :: cs) ++ ['\n']) ++ post = c :: ((cs ++ ['\n']) ++ post) := rfl
        have e2 : (c :: cs) ++ ['\n'] = c :: (cs ++ ['\n']) := rfl
        rw [e1, e2, u, u, h1]
        exact ⟨rfl, h2⟩

/-! ## The loop of `os_release` -/

theorem bind_ok_eq {α β : Type} (x : α) (g : α → Except Fault β) :
    ((Except.ok x : Except Fault α) >>= g) = g x := rfl

theorem os_release_loop_nil (n : Nat) (st : OsRelease) :
    os_release_loop (n + 1) [] st = .ok st := by
  simp [os_release_loop, fgets]

theorem os_release_loop_cons (n : Nat) (c : Char) (f : List Char) (st : OsRelease) :
    os_release_loop (n + 1) (c :: f) st =
      (os_release_line (fgets_chars 4095 (c :: f)).1 st >>=
        os_release_loop n (fgets_chars 4095 (c :: f)).2) := by
  simp only [os_release_loop, fgets]

/-- More fuel than the stream has characters is enough, and the result does
not depend on how much more there is. -/
theorem os_release_loop_fuel (n m : Nat) (f : List Char) (st : OsRelease)
    (hn : f.length < n) (hm : f.length < m) :
    os_release_loop n f st = os_release_loop m f st := by
  induction n generalizing m f st with
  | zero => omega
  | succ n ih =>
    cases m with
    | zero => omega
    | succ m =>
      cases f with
      | nil => rw [os_release_loop_nil, os_release_loop_nil]
      | cons c g =>
        rw [os_release_loop_cons, os_release_loop_cons]
        have hr : (fgets_chars 4095 (c :: g)).2.length < (c :: g).length :=
          fgets_chars_rest_length 4094 c g
        have e : os_release_loop n (fgets_chars 4095 (c :: g)).2 =
            os_release_loop m (fgets_chars 4095 (c :: g)).2 := by
          funext st1
          apply ih
          · simp only [List.length_cons] at hn hr ⊢; omega
          · simp only [List.length_cons] at hm hr ⊢; omega
        rw [e]

theorem os_release_run_nil (st : OsRelease) : os_release_run [] st = .ok st := by
  simp [os_release_run, os_release_loop_nil]

theorem os_release_run_cons (c : Char) (f : List Char) (st : OsRelease) :
    os_release_run (c :: f) st =
      (os_release_line (fgets_chars 4095 (c :: f)).1 st >>=
        os_release_run (fgets_chars 4095 (c :: f)).2) := by
  have hr : (fgets_chars 4095 (c :: f)).2.length < (c :: f).length :=
    fgets_chars_rest_length 4094 c f
  unfold os_release_run
  rw [os_release_loop_cons]
  have e : os_release_loop (c :: f).length (fgets_chars 4095 (c :: f)).2 =
      fun st1 => os_release_loop ((fgets_chars 4095 (c :: f)).2.length + 1)
        (fgets_chars 4095 (c :: f)).2 st1 := by
    funext st1
    apply os_release_loop_fuel
    · exact hr
    · omega
  rw [e]

/-- The loop never stops without a result: it neither faults nor runs out
of fuel. -/
theorem os_release_run_ok (f : List Char) (st : OsRelease) :
    ∃ st1, os_release_run f st = .ok st1 := by
  generalize h : f.length = n
  induction n using Nat.strong_induction_on generalizing f st with
  | _ n ih =>
    cases f with
    | nil => exact ⟨st, os_release_run_nil st⟩
    | cons c g =>
      have hr : (fgets_chars 4095 (c :: g)).2.length < (c :: g).length :=
          fgets_chars_rest_length 4094 c g
      obtain ⟨st1, h1⟩ := os_release_line_ok (fgets_chars 4095 (c :: g)).1 st
      obtain ⟨st2, h2⟩ := ih _ (by rw [← h]; exact hr) (fgets_chars 4095 (c :: g)).2 st1 rfl
      exact ⟨st2, by rw [os_release_run_cons, h1, bind_ok_eq, h2]⟩

/-- At a line boundary the loop on a text is the loop on what precedes,
followed by the loop on what follows. -/
theorem os_release_run_append (pre post : List Char) (st : OsRelease)
    (h : pre = [] ∨ ∃ q, pre = q ++ ['\n']) :
    os_release_run (pre ++ post) st = (os_release_run pre st >>= os_release_run post) := by
  generalize hn : pre.length = n
  induction n using Nat.strong_induction_on generalizing pre st with
  | _ n ih =>
    rcases h with h | ⟨q, hq⟩
    · subst h
      rw [os_release_run_nil, bind_ok_eq]
      rfl
    · cases hp : pre with
      | nil => rw [hp] at hq; simp at hq
      | cons c g =>
        have hb := fgets_chars_boundary 4095 q post
        rw [← hq, hp] at hb
        have hr : (fgets_chars 4095 (c :: g)).2.length < (c :: g).length :=
          fgets_chars_rest_length 4094 c g
        have hcons : (c :: g) ++ post = c :: (g ++ post) := rfl
        rw [hcons, os_release_run_cons, os_release_run_cons]
        rw [hcons] at hb
        rw [hb.1]
        obtain ⟨st1, h1⟩ := os_release_line_ok (fgets_chars 4095 (c :: g)).1 st
        rw [h1, bind_ok_eq, bind_ok_eq]
        apply ih _ _ _ _ hb.2 rfl
        rw [← hn, hp]
        exact hr

/-! ## Lines that fit the buffer -/

theorem bind_ok_right (x : Except Fault OsRelease) :
    (x >>= fun st => (Except.ok st : Except Fault OsRelease)) = x := by
  cases x <;> rfl

theorem os_release_run_line (body rest : List Char) (st : OsRelease)
    (hb : '\n' ∉ body) (hl : body.length < 4095) :
    os_release_run (body ++ '\n' :: rest) st =
      (os_release_line (body ++ ['\n']) st >>= os_release_run rest) := by
  cases h : body ++ '\n' :: rest with
  | nil => simp at h
  | cons c g =>
    rw [os_release_run_cons, ← h, fgets_chars_line 4095 body rest hb hl]

theorem os_release_run_last (t : List Char) (st : OsRelease)
    (hb : '\n' ∉ t) (hl : t.length ≤ 4095) (hne : t ≠ []) :
    os_release_run t st = os_release_line t st := by
  cases h : t with
  | nil => exact absurd h hne
  | cons c g =>
    rw [os_release_run_cons, ← h, fgets_chars_last 4095 t hb hl]
    have e : os_release_run [] = fun st1 => (Except.ok st1 : Except Fault OsRelease) := by
      funext st1
      exact os_release_run_nil st1
    rw [e, bind_ok_right]

theorem os_release_run_full (a rest : List Char) (st : OsRelease)
    (ha : '\n' ∉ a) (hl : a.length = 4095) :
    os_release_run (a ++ rest) st = (os_release_line a st >>= os_release_run rest) := by
  cases h : a ++ rest with
  | nil =>
    have e : (a ++ rest).length = 0 := by rw [h]; rfl
    rw [List.length_append] at e
    omega
  | cons c g =>
    rw [os_release_run_cons, ← h, fgets_chars_full 4095 a rest ha hl]

theorem tag_concat_newline (k : Key) (l : List Char) :
    k.tag <+: l ++ ['\n'] ↔ k.tag <+: l := by
  rw [List.prefix_concat_iff]
  constructor
  · rintro (h | h)
    · exact absurd (by rw [h]; simp) (tag_no_newline k)
    · exact h
  · exact Or.inr

theorem os_release_line_other (line : List Char) (st : OsRelease)
    (h : ∀ k : Key, ¬ k.tag <+: line) : os_release_line line st = .ok st := by
  rcases os_release_line_spec line st with ⟨k, _, hk, _, _⟩ | ⟨_, hr⟩
  · exact absurd hk (h k)
  · exact hr

theorem os_release_line_tagged (k : Key) (line : List Char) (st : OsRelease)
    (v : Option CStr) (h : k.tag <+: line)
    (hv : unquote (cstr (line.drop k.tag.length)) = .ok v) :
    os_release_line line st = .ok (k.set st v) := by
  rcases os_release_line_spec line st with ⟨k1, v1, hk1, hv1, hr⟩ | ⟨hno, _⟩
  · have e : k1 = k := tags_disjoint k1 k line hk1 h
    subst e
    rw [hv] at hv1
    cases hv1
    exact hr
  · exact absurd h (hno k)

theorem text_of_cons (l : List Char) (ls : List (List Char)) (last : List Char) :
    text_of (l :: ls) last = l ++ '\n' :: text_of ls last := by
  simp [text_of]

/-- Lines that fit the buffer and do not begin with the tag of `k` leave the
variable of `k` as it is. -/
theorem os_release_run_keeps (k : Key) (ls : List (List Char)) (last : List Char)
    (st : OsRelease)
    (hls : ∀ l ∈ ls, '\n' ∉ l ∧ l.length < 4095 ∧ ¬ k.tag <+: l)
    (hlast : '\n' ∉ last ∧ last.length ≤ 4095 ∧ ¬ k.tag <+: last) :
    ∃ st1, os_release_run (text_of ls last) st = .ok st1 ∧ k.get st1 = k.get st := by
  induction ls generalizing st with
  | nil =>
    have e : text_of [] last = last := by simp [text_of]
    rw [e]
    by_cases hne : last = []
    · rw [hne]
      exact ⟨st, os_release_run_nil st, rfl⟩
    · rw [os_release_run_last last st hlast.1 hlast.2.1 hne]
      exact os_release_line_keeps k last st hlast.2.2
  | cons l ls ih =>
    obtain ⟨h1, h2, h3⟩ := hls l (by simp)
    have h4 : ¬ k.tag <+: l ++ ['\n'] := fun h => h3 ((tag_concat_newline k l).mp h)
    obtain ⟨st1, hs1, hg1⟩ := os_release_line_keeps k (l ++ ['\n']) st h4
    obtain ⟨st2, hs2, hg2⟩ := ih st1 (fun x hx => hls x (by simp [hx]))
    refine ⟨st2, ?_, by rw [hg2, hg1]⟩
    rw [text_of_cons, os_release_run_line l _ st h1 h2, hs1, bind_ok_eq, hs2]

theorem line_start_iff (pre : List Char) :
    (pre = [] ∨ pre.getLast? = some '\n') ↔ (pre = [] ∨ ∃ q, pre = q ++ ['\n']) := by
  rw [List.getLast?_eq_some_iff]

/-- After any text that ends at a line boundary, a line of the key `k` that
fits the buffer, followed by lines that fit the buffer and are not lines of
`k`, leaves in the variable of `k` the unquoted value of that line. -/
theorem os_release_run_last_tagged (k : Key) (pre body : List Char)
    (ls : List (List Char)) (last : List Char) (st : OsRelease)
    (hpre : pre = [] ∨ pre.getLast? = some '\n')
    (hb : '\n' ∉ body) (hl : body.length < 4095) (hk : k.tag <+: body)
    (hls : ∀ l ∈ ls, '\n' ∉ l ∧ l.length < 4095 ∧ ¬ k.tag <+: l)
    (hlast : '\n' ∉ last ∧ last.length ≤ 4095 ∧ ¬ k.tag <+: last) :
    ∃ v st1, unquote (cstr ((body ++ ['\n']).drop k.tag.length)) = .ok v ∧
      os_release_run (pre ++ (body ++ ['\n']) ++ text_of ls last) st = .ok st1 ∧
      k.get st1 = v := by
  obtain ⟨st0, h0⟩ := os_release_run_ok pre st
  have hk2 : k.tag <+: body ++ ['\n'] := (tag_concat_newline k body).mpr hk
  obtain ⟨v, st1, hv, hs1, hg1⟩ := os_release_line_sets k (body ++ ['\n']) st0 hk2
  obtain ⟨st2, hs2, hg2⟩ := os_release_run_keeps k ls last st1 hls hlast
  refine ⟨v, st2, hv, ?_, by rw [hg2, hg1]⟩
  have e : pre ++ (body ++ ['\n']) ++ text_of ls last =
      pre ++ (body ++ '\n' :: text_of ls last) := by simp
  rw [e, os_release_run_append pre _ st ((line_start_iff pre).mp hpre), h0, bind_ok_eq,
    os_release_run_line body _ st0 hb hl, hs1, bind_ok_eq, hs2]

/-- The same when the line of the key `k` is the last line of the text and
has no newline. -/
theorem os_release_run_last_tagged_eof (k : Key) (pre body : List Char) (st : OsRelease)
    (hpre : pre = [] ∨ pre.getLast? = some '\n')
    (hb : '\n' ∉ body) (hl : body.length ≤ 4095) (hk : k.tag <+: body) :
    ∃ v st1, unquote (cstr (body.drop k.tag.length)) = .ok v ∧
      os_release_run (pre ++ body) st = .ok st1 ∧ k.get st1 = v := by
  obtain ⟨st0, h0⟩ := os_release_run_ok pre st
  obtain ⟨v, st1, hv, hs1, hg1⟩ := os_release_line_sets k body st0 hk
  have hne : body ≠ [] := by
    intro e
    rw [e] at hk
    cases k <;> simp [Key.tag] at hk
  refine ⟨v, st1, hv, ?_, hg1⟩
  rw [os_release_run_append pre _ st ((line_start_iff pre).mp hpre), h0, bind_ok_eq,
    os_release_run_last body st0 hb hl hne, hs1]

theorem os_release_eq_run (f : List Char) (out : OsRelease) :
    os_release (.ok f) out =
      (os_release_run f all_null >>= fun st => (Except.ok (0, st) : Except Fault _)) := rfl

theorem os_release_of_run (f : List Char) (out st : OsRelease)
    (h : os_release_run f all_null = .ok st) : os_release (.ok f) out = .ok (0, st) := by
  rw [os_release_eq_run, h]
  rfl

/-! ## The probes never stop without a result -/

theorem os_release_ok (file : Except Int (List Char)) (out : OsRelease) :
    ∃ r, os_release file out = .ok r := by
  cases file with
  | error e => exact ⟨_, rfl⟩
  | ok f =>
    obtain ⟨st, h⟩ := os_release_run_ok f all_null
    exact ⟨_, os_release_of_run f out st h⟩

theorem detect_virt_ok (pipe : Except Int (List Char)) (namep : Option CStr) :
    ∃ r, detect_virt pipe namep = .ok r := by
  cases pipe with
  | error e => exact ⟨(-e, namep), rfl⟩
  | ok f =>
    cases h : fgets 64 f with
    | none => exact ⟨(0, namep), by simp only [detect_virt, h]⟩
    | some x =>
      obtain ⟨name, rest⟩ := x
      obtain ⟨v, hv⟩ := unquote_ok (cstr name)
      exact ⟨(0, v), by simp only [detect_virt, h, hv, bind, Except.bind]⟩

/-! ## Fields of a reply object -/

theorem varlink_object_get_set_same (o : VarlinkObject) (field : String)
    (v : VarlinkValue) :
    varlink_object_get (varlink_object_set o field v) field = some v := by
  induction o with
  | nil => simp [varlink_object_get, varlink_object_set]
  | cons kv o ih =>
    unfold varlink_object_get varlink_object_set at ih ⊢
    by_cases h : kv.1 = field
    · have e : (kv.1 != field) = false := by simp [h]
      simp only [List.filter_cons, e, Bool.false_eq_true, if_false]
      exact ih
    · have e : (kv.1 != field) = true := by simp [h]
      have e2 : (kv.1 == field) = false := by simp [h]
      simp only [List.filter_cons, e, if_true, List.cons_append, List.find?_cons, e2]
      exact ih

theorem varlink_object_get_set_other (o : VarlinkObject) (field other : String)
    (v : VarlinkValue) (hne : field ≠ other) :
    varlink_object_get (varlink_object_set o field v) other = varlink_object_get o other := by
  induction o with
  | nil =>
    have e : (field == other) = false := by simp [hne]
    simp [varlink_object_get, varlink_object_set, e]
  | cons kv o ih =>
    unfold varlink_object_get varlink_object_set at ih ⊢
    by_cases h : kv.1 = field
    · have e : (kv.1 != field) = false := by simp [h]
      have e2 : (kv.1 == other) = false := by
        rw [h]; simp [hne]
      simp only [List.filter_cons, e, Bool.false_eq_true, if_false, List.find?_cons, e2]
      exact ih
    · have e : (kv.1 != field) = true := by simp [h]
      simp only [List.filter_cons, e, if_true, List.cons_append, List.find?_cons]
      cases e2 : (kv.1 == other) with
      | true => rfl
      | false => exact ih

theorem get_set_string_if_same (o : VarlinkObject) (field : String) (v : Option CStr)
    (ho : varlink_object_get o field = none) :
    varlink_object_get (set_string_if o field v) field = v.map VarlinkValue.string := by
  cases v with
  | none => exact ho
  | some x => exact varlink_object_get_set_same o field _

theorem get_set_string_if_other (o : VarlinkObject) (field other : String)
    (v : Option CStr) (hne : field ≠ other) :
    varlink_object_get (set_string_if o field v) other = varlink_object_get o other := by
  cases v with
  | none => rfl
  | some x => exact varlink_object_get_set_other o field other _ hne

/-! ## Properties of the reply -/

/-- C3: whatever the three probes give, the method replies, and the reply
holds `hostname` (the node name) and an object `system` with
`kernel_version` (the kernel release); `system` holds `name`, `id`,
`variant`, `version`, and the object `virtualization` holds `name`, exactly
when `os_release` or `detect_virt` produced the string, which is then the
value of the field.  When the release file cannot be opened the four
optional fields of `system` are absent, and when the detector writes
nothing `virtualization` has no `name`. -/
theorem getinfo_reply_fields (env : Probes) :
    ∃ (rel : Int × OsRelease) (virt : Int × Option CStr)
      (reply system virtualization : VarlinkObject),
      os_release env.os_release_file all_null = .ok rel ∧
      detect_virt env.detect_virt_pipe none = .ok virt ∧
      io_systemd_sysinfo_GetInfo env = .ok reply ∧
      varlink_object_get reply "hostname" =
        some (VarlinkValue.string env.uname.nodename) ∧
      varlink_object_get reply "system" = some (VarlinkValue.object system) ∧
      varlink_object_get reply "virtualization" =
        some (VarlinkValue.object virtualization) ∧
      varlink_object_get system "kernel_version" =
        some (VarlinkValue.string env.uname.release) ∧
      varlink_object_get system "name" = rel.2.name.map VarlinkValue.string ∧
      varlink_object_get system "id" = rel.2.id.map VarlinkValue.string ∧
      varlink_object_get system "variant" = rel.2.variant.map VarlinkValue.string ∧
      varlink_object_get system "version" = rel.2.version.map VarlinkValue.string ∧
      varlink_object_get virtualization "name" = virt.2.map VarlinkValue.string ∧
      ((∃ e, env.os_release_file = .error e) →
        varlink_object_get system "name" = none ∧
        varlink_object_get system "id" = none ∧
        varlink_object_get system "variant" = none ∧
        varlink_object_get system "version" = none) ∧
      (env.detect_virt_pipe = .ok [] → varlink_object_get virtualization "name" = none) := by
  obtain ⟨rel, hrel⟩ := os_release_ok env.os_release_file all_null
  obtain ⟨virt, hvirt⟩ := detect_virt_ok env.detect_virt_pipe none
  obtain ⟨system, hsys⟩ : ∃ system : VarlinkObject, system =
      varlink_object_set_string
        (set_string_if (set_string_if (set_string_if
          (set_string_if varlink_object_new "name" rel.2.name) "id" rel.2.id)
          "variant" rel.2.variant) "version" rel.2.version)
        "kernel_version" env.uname.release := ⟨_, rfl⟩
  obtain ⟨virtualization, hvz⟩ : ∃ virtualization : VarlinkObject, virtualization =
      set_string_if varlink_object_new "name" virt.2 := ⟨_, rfl⟩
  have hname : varlink_object_get system "name" = rel.2.name.map VarlinkValue.string := by
    rw [hsys, varlink_object_set_string, varlink_object_get_set_other _ _ _ _ (by decide),
      get_set_string_if_other _ _ _ _ (by decide),
      get_set_string_if_other _ _ _ _ (by decide),
      get_set_string_if_other _ _ _ _ (by decide),
      get_set_string_if_same]
    rfl
  have hid : varlink_object_get system "id" = rel.2.id.map VarlinkValue.string := by
    rw [hsys, varlink_object_set_string, varlink_object_get_set_other _ _ _ _ (by decide),
      get_set_string_if_other _ _ _ _ (by decide),
      get_set_string_if_other _ _ _ _ (by decide),
      get_set_string_if_same]
    rw [get_set_string_if_other _ _ _ _ (by decide)]
    rfl
  have hvariant : varlink_object_get system "variant" =
      rel.2.variant.map VarlinkValue.string := by
    rw [hsys, varlink_object_set_string, varlink_object_get_set_other _ _ _ _ (by decide),
      get_set_string_if_other _ _ _ _ (by decide),
      get_set_string_if_same]
    rw [get_set_string_if_other _ _ _ _ (by decide),
      get_set_string_if_other _ _ _ _ (by decide)]
    rfl
  have hversion : varlink_object_get system "version" =
      rel.2.version.map VarlinkValue.string := by
    rw [hsys, varlink_object_set_string, varlink_object_get_set_other _ _ _ _ (by decide),
      get_set_string_if_same]
    rw [get_set_string_if_other _ _ _ _ (by decide),
      get_set_string_if_other _ _ _ _ (by decide),
      get_set_string_if_other _ _ _ _ (by decide)]
    rfl
  have hvn : varlink_object_get virtualization "name" =
      virt.2.map VarlinkValue.string := by
    rw [hvz, get_set_string_if_same]
    rfl
  refine ⟨rel, virt,
    varlink_object_set_object
      (varlink_object_set_object
        (varlink_object_set_string varlink_object_new "hostname" env.uname.nodename)
        "system" system)
      "virtualization" virtualization,
    system, virtualization, hrel, hvirt, ?_, ?_, ?_, ?_, ?_, hname, hid, hvariant,
    hversion, hvn, ?_, ?_⟩
  · simp only [io_systemd_sysinfo_GetInfo, hrel, hvirt, bind, Except.bind, hsys, hvz]
  · rw [varlink_object_set_object, varlink_object_get_set_other _ _ _ _ (by decide),
      varlink_object_set_object, varlink_object_get_set_other _ _ _ _ (by decide),
      varlink_object_set_string, varlink_object_get_set_same]
  · rw [varlink_object_set_object, varlink_object_get_set_other _ _ _ _ (by decide),
      varlink_object_set_object, varlink_object_get_set_same]
  · rw [varlink_object_set_object, varlink_object_get_set_same]
  · rw [hsys, varlink_object_set_string, varlink_object_get_set_same]
  · rintro ⟨e, he⟩
    rw [he] at hrel
    have hr : rel.2 = all_null := by
      have : (Except.ok (-e, all_null) : Except Fault (Int × OsRelease)) = .ok rel := hrel
      cases this
      rfl
    rw [hname, hid, hvariant, hversion, hr]
    exact ⟨rfl, rfl, rfl, rfl⟩
  · intro he
    rw [he] at hvirt
    have hr : virt.2 = none := by
      have : (Except.ok (0, none) : Except Fault (Int × Option CStr)) = .ok virt := hvirt
      cases this
      rfl
    rw [hvn, hr]
    rfl

/-- Witness of C3: the release file is missing and the detector prints
nothing. -/
theorem getinfo_reply_fields_witness :
    ∃ (rel : Int × OsRelease) (virt : Int × Option CStr)
      (reply system virtualization : VarlinkObject),
      os_release (.error 2) all_null = .ok rel ∧
      detect_virt (.ok []) none = .ok virt ∧
      io_systemd_sysinfo_GetInfo ⟨.error 2, .ok [], ⟨['6'], ['h']⟩⟩ = .ok reply ∧
      varlink_object_get reply "hostname" = some (VarlinkValue.string ['h']) ∧
      varlink_object_get reply "system" = some (VarlinkValue.object system) ∧
      varlink_object_get reply "virtualization" =
        some (VarlinkValue.object virtualization) ∧
      varlink_object_get system "kernel_version" = some (VarlinkValue.string ['6']) ∧
      varlink_object_get system "name" = rel.2.name.map VarlinkValue.string ∧
      varlink_object_get system "id" = rel.2.id.map VarlinkValue.string ∧
      varlink_object_get system "variant" = rel.2.variant.map VarlinkValue.string ∧
      varlink_object_get system "version" = rel.2.version.map VarlinkValue.string ∧
      varlink_object_get virtualization "name" = virt.2.map VarlinkValue.string ∧
      ((∃ e, (Except.error 2 : Except Int (List Char)) = .error e) →
        varlink_object_get system "name" = none ∧
        varlink_object_get system "id" = none ∧
        varlink_object_get system "variant" = none ∧
        varlink_object_get system "version" = none) ∧
      ((Except.ok [] : Except Int (List Char)) = .ok [] →
        varlink_object_get virtualization "name" = none) :=
  getinfo_reply_fields ⟨.error 2, .ok [], ⟨['6'], ['h']⟩⟩

/-! ## Properties of the values -/

/-- C4: a value that starts with a double quote and holds a further double
quote splits as quote, `a`, quote, `b` with no quote in `b`, and `unquote`
returns `a`: what stands strictly between the first quote and the last one;
the last quote and what follows it are dropped.  The release file made of the
line `NAME="Foo Bar"` and a newline gives the name `Foo Bar`. -/
theorem unquote_strips_quote_pair (v : CStr) (h1 : v.head? = some '"')
    (h2 : '"' ∈ v.tail) :
    (∃ a b, v = '"' :: (a ++ '"' :: b) ∧ '"' ∉ b ∧ unquote v = .ok (some a)) ∧
    os_release (.ok "NAME=\"Foo Bar\"\n".toList) all_null =
      .ok (0, ⟨some "Foo Bar".toList, none, none, none⟩) := by
  refine ⟨?_, by decide⟩
  cases v with
  | nil => simp at h1
  | cons c t =>
    have hc : c = '"' := by simpa using h1
    subst hc
    obtain ⟨a, b, hab, hb⟩ := exists_last_split t '"' h2
    exact ⟨a, b, by rw [hab], hb, by rw [hab]; exact unquote_quoted_split a b hb⟩

/-- Witness of C4: the value of the line `NAME="Foo Bar"`. -/
theorem unquote_strips_quote_pair_witness :
    ∃ a b, "\"Foo Bar\"\n".toList = '"' :: (a ++ '"' :: b) ∧ '"' ∉ b ∧
      unquote "\"Foo Bar\"\n".toList = .ok (some a) :=
  (unquote_strips_quote_pair "\"Foo Bar\"\n".toList (by decide) (by decide)).1

/-- C5: for a string `v` that does not start with a double quote and holds
no newline, `unquote` of `v` followed by a newline is `v`, and `unquote` of
`v` is `v`.  The release file made of the line `ID=foo` and a newline gives
the id `foo`, and the detector output `kvm` and a newline gives the
virtualization name `kvm`, in `detect_virt` and in the reply. -/
theorem unquote_plain_value (v : CStr) (h1 : v.head? ≠ some '"') (h2 : '\n' ∉ v) :
    unquote (v ++ ['\n']) = .ok (some v) ∧
    unquote v = .ok (some v) ∧
    os_release (.ok "ID=foo\n".toList) all_null =
      .ok (0, ⟨none, some "foo".toList, none, none⟩) ∧
    detect_virt (.ok "kvm\n".toList) none = .ok (0, some "kvm".toList) ∧
    io_systemd_sysinfo_GetInfo ⟨.error 2, .ok "kvm\n".toList, ⟨['6'], ['h']⟩⟩ =
      .ok [("hostname", VarlinkValue.string ['h']),
        ("system", VarlinkValue.object [("kernel_version", VarlinkValue.string ['6'])]),
        ("virtualization",
          VarlinkValue.object [("name", VarlinkValue.string "kvm".toList)])] := by
  refine ⟨unquote_plain_newline v h1 h2, unquote_plain v h1 h2, by decide, by decide, ?_⟩
  rfl

/-- Witness of C5: the value `foo`. -/
theorem unquote_plain_value_witness :
    unquote ("foo".toList ++ ['\n']) = .ok (some "foo".toList) :=
  (unquote_plain_value "foo".toList (by decide) (by decide)).1

/-! ## Properties of the release-metadata probe -/

theorem os_release_run_skip (body post : List Char) (hb : '\n' ∉ body)
    (hl : body.length < 4095) (hk : ∀ k : Key, ¬ k.tag <+: body) :
    os_release_run ((body ++ ['\n']) ++ post) = os_release_run post := by
  funext st
  have e : (body ++ ['\n']) ++ post = body ++ '\n' :: post := by simp
  have h : ∀ k : Key, ¬ k.tag <+: body ++ ['\n'] :=
    fun k hp => hk k ((tag_concat_newline k body).mp hp)
  rw [e, os_release_run_line body post st hb hl, os_release_line_other _ st h, bind_ok_eq]

theorem os_release_run_skip_last (body : List Char) (hb : '\n' ∉ body)
    (hl : body.length ≤ 4095) (hk : ∀ k : Key, ¬ k.tag <+: body) :
    os_release_run body = fun st => (Except.ok st : Except Fault OsRelease) := by
  funext st
  by_cases hne : body = []
  · rw [hne, os_release_run_nil]
  · rw [os_release_run_last body st hb hl hne, os_release_line_other _ st hk]

theorem key_get_all_null (k : Key) : k.get all_null = none := by
  cases k <;> rfl

/-- C7 (amended): a line that begins with none of the four tags and fits the
read buffer (at most 4095 characters with its newline) can be inserted at
any line boundary of any content, or removed, and `os_release` returns the
same; this holds as well for such a line without newline at the end of the
content.  And when every line of the content fits the buffer and none begins
with the tag of a key, the field of that key is absent. -/
theorem os_release_other_lines_ignored :
    (∀ (pre body post : List Char) (out : OsRelease),
      (pre = [] ∨ pre.getLast? = some '\n') → '\n' ∉ body → body.length < 4095 →
      (∀ k : Key, ¬ k.tag <+: body) →
      os_release (.ok (pre ++ (body ++ ['\n']) ++ post)) out =
        os_release (.ok (pre ++ post)) out) ∧
    (∀ (pre body : List Char) (out : OsRelease),
      (pre = [] ∨ pre.getLast? = some '\n') → '\n' ∉ body → body.length ≤ 4095 →
      (∀ k : Key, ¬ k.tag <+: body) →
      os_release (.ok (pre ++ body)) out = os_release (.ok pre) out) ∧
    (∀ (k : Key) (ls : List (List Char)) (last : List Char) (out : OsRelease),
      (∀ l ∈ ls, '\n' ∉ l ∧ l.length < 4095 ∧ ¬ k.tag <+: l) →
      ('\n' ∉ last ∧ last.length ≤ 4095 ∧ ¬ k.tag <+: last) →
      ∃ r, os_release (.ok (text_of ls last)) out = .ok (0, r) ∧ k.get r = none) := by
  refine ⟨?_, ?_, ?_⟩
  · intro pre body post out hpre hb hl hk
    have hp := (line_start_iff pre).mp hpre
    rw [os_release_eq_run, os_release_eq_run, List.append_assoc,
      os_release_run_append pre _ all_null hp, os_release_run_append pre post all_null hp,
      os_release_run_skip body post hb hl hk]
  · intro pre body out hpre hb hl hk
    have hp := (line_start_iff pre).mp hpre
    rw [os_release_eq_run, os_release_eq_run, os_release_run_append pre body all_null hp,
      os_release_run_skip_last body hb hl hk, bind_ok_right]
  · intro k ls last out hls hlast
    obtain ⟨st, hs, hg⟩ := os_release_run_keeps k ls last all_null hls hlast
    exact ⟨st, os_release_of_run _ out st hs, by rw [hg, key_get_all_null]⟩

/-- Witness of C7: the line `PRETTY_NAME=x` between an `ID=` line and a
`NAME=` line. -/
theorem os_release_other_lines_ignored_witness :
    os_release (.ok ("ID=a\n".toList ++ ("PRETTY_NAME=x".toList ++ ['\n']) ++
        "NAME=b\n".toList)) all_null =
      os_release (.ok ("ID=a\n".toList ++ "NAME=b\n".toList)) all_null :=
  os_release_other_lines_ignored.1 "ID=a\n".toList "PRETTY_NAME=x".toList
    "NAME=b\n".toList all_null (Or.inr (by decide)) (by decide) (by decide)
    (fun k => by cases k <;> decide)

/-- C10 (amended): when a line that begins with the tag of a key fits the
read buffer (at most 4095 characters with its newline) and every line after
it fits the buffer and does not begin with that tag, the field of the key
is the unquoted value of that line, whatever the lines before it hold; this
holds as well when that line is the last one and has no newline.  So a
malformed value on the last `NAME=` line gives an absent name although an
earlier `NAME=` line had a valid value. -/
theorem os_release_last_line_value :
    (∀ (k : Key) (pre body : List Char) (ls : List (List Char)) (last : List Char)
        (out : OsRelease),
      (pre = [] ∨ pre.getLast? = some '\n') → '\n' ∉ body → body.length < 4095 →
      k.tag <+: body →
      (∀ l ∈ ls, '\n' ∉ l ∧ l.length < 4095 ∧ ¬ k.tag <+: l) →
      ('\n' ∉ last ∧ last.length ≤ 4095 ∧ ¬ k.tag <+: last) →
      ∃ v r, unquote (cstr ((body ++ ['\n']).drop k.tag.length)) = .ok v ∧
        os_release (.ok (pre ++ (body ++ ['\n']) ++ text_of ls last)) out = .ok (0, r) ∧
        k.get r = v) ∧
    (∀ (k : Key) (pre body : List Char) (out : OsRelease),
      (pre = [] ∨ pre.getLast? = some '\n') → '\n' ∉ body → body.length ≤ 4095 →
      k.tag <+: body →
      ∃ v r, unquote (cstr (body.drop k.tag.length)) = .ok v ∧
        os_release (.ok (pre ++ body)) out = .ok (0, r) ∧ k.get r = v) ∧
    os_release (.ok "NAME=ok\nNAME=\"bad\n".toList) all_null = .ok (0, all_null) := by
  refine ⟨?_, ?_, by decide⟩
  · intro k pre body ls last out hpre hb hl hk hls hlast
    obtain ⟨v, st, hv, hs, hg⟩ :=
      os_release_run_last_tagged k pre body ls last all_null hpre hb hl hk hls hlast
    exact ⟨v, st, hv, os_release_of_run _ out st hs, hg⟩
  · intro k pre body out hpre hb hl hk
    obtain ⟨v, st, hv, hs, hg⟩ :=
      os_release_run_last_tagged_eof k pre body all_null hpre hb hl hk
    exact ⟨v, st, hv, os_release_of_run _ out st hs, hg⟩

/-- Witness of C10: two `ID=` lines, then a line of another key. -/
theorem os_release_last_line_value_witness :
    ∃ v r, unquote (cstr (("ID=two".toList ++ ['\n']).drop Key.id.tag.length)) = .ok v ∧
      os_release (.ok ("ID=one\n".toList ++ ("ID=two".toList ++ ['\n']) ++
        text_of ["NAME=n".toList] [])) all_null = .ok (0, r) ∧
      Key.id.get r = v :=
  os_release_last_line_value.1 Key.id "ID=one\n".toList "ID=two".toList
    ["NAME=n".toList] [] all_null (Or.inr (by decide)) (by decide) (by decide)
    (by decide) (by decide) (by decide)

/-- C6 (amended): `unquote` returns `NULL` for a value that starts with a
double quote and holds no other one; `unquote`, `os_release` and
`detect_virt` return a result for every input, never leaving the bounds of a
string; and when a line of a key fits the read buffer (at most 4095
characters with its newline), its value starts with a double quote and holds
no other one, and every line after it fits the buffer and is not a line of
that key, the field of the key is absent. -/
theorem unquote_unmatched_quote_absent :
    (∀ b : CStr, '"' ∉ b → unquote ('"' :: b) = .ok none) ∧
    (∀ s : CStr, ∃ r, unquote s = .ok r) ∧
    (∀ (file : Except Int (List Char)) (out : OsRelease), ∃ r, os_release file out = .ok r) ∧
    (∀ (pipe : Except Int (List Char)) (namep : Option CStr),
      ∃ r, detect_virt pipe namep = .ok r) ∧
    (∀ (k : Key) (pre body : List Char) (ls : List (List Char)) (last : List Char)
        (out : OsRelease),
      (pre = [] ∨ pre.getLast? = some '\n') → '\n' ∉ body → body.length < 4095 →
      k.tag <+: body →
      (∀ l ∈ ls, '\n' ∉ l ∧ l.length < 4095 ∧ ¬ k.tag <+: l) →
      ('\n' ∉ last ∧ last.length ≤ 4095 ∧ ¬ k.tag <+: last) →
      (cstr ((body ++ ['\n']).drop k.tag.length)).head? = some '"' →
      '"' ∉ (cstr ((body ++ ['\n']).drop k.tag.length)).tail →
      ∃ r, os_release (.ok (pre ++ (body ++ ['\n']) ++ text_of ls last)) out = .ok (0, r) ∧
        k.get r = none) ∧
    (∀ (k : Key) (pre body : List Char) (out : OsRelease),
      (pre = [] ∨ pre.getLast? = some '\n') → '\n' ∉ body → body.length ≤ 4095 →
      k.tag <+: body →
      (cstr (body.drop k.tag.length)).head? = some '"' →
      '"' ∉ (cstr (body.drop k.tag.length)).tail →
      ∃ r, os_release (.ok (pre ++ body)) out = .ok (0, r) ∧ k.get r = none) := by
  have hq : ∀ (s : CStr) (v : Option CStr), s.head? = some '"' → '"' ∉ s.tail →
      unquote s = .ok v → v = none := by
    intro s v h1 h2 hv
    cases s with
    | nil => simp at h1
    | cons c t =>
      have hc : c = '"' := by simpa using h1
      subst hc
      rw [unquote_unmatched t h2] at hv
      cases hv
      rfl
  refine ⟨unquote_unmatched, unquote_ok, os_release_ok, detect_virt_ok, ?_, ?_⟩
  · intro k pre body ls last out hpre hb hl hk hls hlast h1 h2
    obtain ⟨v, st, hv, hs, hg⟩ :=
      os_release_run_last_tagged k pre body ls last all_null hpre hb hl hk hls hlast
    exact ⟨st, os_release_of_run _ out st hs, by rw [hg]; exact hq _ v h1 h2 hv⟩
  · intro k pre body out hpre hb hl hk h1 h2
    obtain ⟨v, st, hv, hs, hg⟩ :=
      os_release_run_last_tagged_eof k pre body all_null hpre hb hl hk
    exact ⟨st, os_release_of_run _ out st hs, by rw [hg]; exact hq _ v h1 h2 hv⟩

/-- Witness of C6: the only `NAME=` line has an opening quote and no
closing one. -/
theorem unquote_unmatched_quote_absent_witness :
    ∃ r, os_release (.ok ("ID=a\n".toList ++ ("NAME=\"Foo".toList ++ ['\n']) ++
        text_of ["VARIANT=v".toList] [])) all_null = .ok (0, r) ∧
      Key.name.get r = none :=
  unquote_unmatched_quote_absent.2.2.2.2.1 Key.name "ID=a\n".toList "NAME=\"Foo".toList
    ["VARIANT=v".toList] [] all_null (Or.inr (by decide)) (by decide) (by decide)
    (by decide) (by decide) (by decide) (by decide) (by decide)

/-! ## Lines longer than the read buffer -/

theorem cstr_eq_self (l : List Char) (h : ∀ c ∈ l, c ≠ Char.ofNat 0) : cstr l = l := by
  have e := cstr_append_of_no_nul l [] h
  rw [List.append_nil] at e
  rw [e]
  simp [cstr]

theorem not_mem_replicate (n : Nat) (x c : Char) (h : c ≠ x) : c ∉ List.replicate n x :=
  fun hm => h (List.mem_replicate.mp hm).2

theorem not_mem_append (c : Char) (a b : List Char) (ha : c ∉ a) (hb : c ∉ b) :
    c ∉ a ++ b := by
  intro h
  rcases List.mem_append.mp h with h1 | h1
  · exact ha h1
  · exact hb h1

theorem no_nul_replicate (n : Nat) (x : Char) (h : x ≠ Char.ofNat 0) :
    ∀ c ∈ List.replicate n x, c ≠ Char.ofNat 0 := by
  intro c hc
  rw [(List.mem_replicate.mp hc).2]
  exact h

theorem no_nul_append (a b : List Char) (ha : ∀ c ∈ a, c ≠ Char.ofNat 0)
    (hb : ∀ c ∈ b, c ≠ Char.ofNat 0) : ∀ c ∈ a ++ b, c ≠ Char.ofNat 0 := by
  intro c hc
  rcases List.mem_append.mp hc with h1 | h1
  · exact ha c h1
  · exact hb c h1

theorem head_replicate_succ_append (n : Nat) (x : Char) (r : List Char) :
    (List.replicate (n + 1) x ++ r).head? = some x := rfl

/-- Counterexample to C7 as stated: the line of 4095 `x` followed by
`NAME=evil` begins with none of the four tags, yet inserting it into the
empty content changes the name from absent to `evil`: `fgets` returns the
first 4095 characters, and its next call returns a buffer that begins with
`NAME=`. -/
theorem os_release_long_line_inserted :
    (∀ k : Key, ¬ k.tag <+: List.replicate 4095 'x' ++ "NAME=evil".toList) ∧
    '\n' ∉ List.replicate 4095 'x' ++ "NAME=evil".toList ∧
    os_release (.ok ([] ++ ((List.replicate 4095 'x' ++ "NAME=evil".toList) ++ ['\n']) ++ []))
      all_null = .ok (0, ⟨some "evil".toList, none, none, none⟩) ∧
    os_release (.ok ([] ++ [])) all_null = .ok (0, ⟨none, none, none, none⟩) ∧
    os_release (.ok ([] ++ ((List.replicate 4095 'x' ++ "NAME=evil".toList) ++ ['\n']) ++ []))
      all_null ≠ os_release (.ok ([] ++ [])) all_null := by
  have hx : ∀ k : Key, ¬ k.tag <+: List.replicate 4095 'x' := by
    intro k h
    have hm : '=' ∈ List.replicate 4095 'x' := h.subset (by cases k <;> decide)
    exact not_mem_replicate 4095 'x' '=' (by decide) hm
  have hk : ∀ k : Key, ¬ k.tag <+: List.replicate 4095 'x' ++ "NAME=evil".toList := by
    intro k h
    apply hx k
    have hle : k.tag.length ≤ (List.replicate 4095 'x').length := by
      rw [List.length_replicate]
      cases k <;> decide
    rw [List.prefix_iff_eq_take] at h ⊢
    rw [List.take_append_of_le_length hle] at h
    exact h
  have hn : '\n' ∉ List.replicate 4095 'x' := not_mem_replicate 4095 'x' '\n' (by decide)
  have hrun : os_release_run (List.replicate 4095 'x' ++ "NAME=evil\n".toList) all_null =
      .ok ⟨some "evil".toList, none, none, none⟩ := by
    rw [os_release_run_full _ _ all_null hn (List.length_replicate _ _),
      os_release_line_other _ _ hx, bind_ok_eq]
    decide
  have e : ([] : List Char) ++ ((List.replicate 4095 'x' ++ "NAME=evil".toList) ++ ['\n'])
      ++ [] = List.replicate 4095 'x' ++ "NAME=evil\n".toList := by
    rw [List.nil_append, List.append_nil, List.append_assoc]
    rfl
  have r1 := os_release_of_run _ all_null _ hrun
  have r2 : os_release (.ok ([] ++ [])) all_null = .ok (0, ⟨none, none, none, none⟩) := by
    decide
  refine ⟨hk, not_mem_append _ _ _ hn (by decide), ?_, r2, ?_⟩
  · rw [e]; exact r1
  · rw [e, r1, r2]
    decide

/-- Counterexample to C10 as stated: `NAME=` appears on two lines, the last
one holds 4090 `b` and then `cd`; the unquoted value of that line ends in
`cd`, but the name `os_release` returns is the 4090 `b` alone: `fgets`
returns the first 4095 characters of the line, and its next call returns a
buffer that does not begin with `NAME=`. -/
theorem os_release_long_last_line :
    unquote (cstr (((Key.name.tag ++ List.replicate 4090 'b' ++ ['c', 'd']) ++ ['\n']).drop
      Key.name.tag.length)) = .ok (some (List.replicate 4090 'b' ++ ['c', 'd'])) ∧
    os_release (.ok ("NAME=a\n".toList ++
      ((Key.name.tag ++ List.replicate 4090 'b' ++ ['c', 'd']) ++ ['\n']))) all_null =
      .ok (0, ⟨some (List.replicate 4090 'b'), none, none, none⟩) ∧
    List.replicate 4090 'b' ≠ List.replicate 4090 'b' ++ ['c', 'd'] := by
  have hb0 := no_nul_replicate 4090 'b' (by decide)
  have hbn : '\n' ∉ List.replicate 4090 'b' := not_mem_replicate 4090 'b' '\n' (by decide)
  have hhead : ∀ r : List Char, (List.replicate 4090 'b' ++ r).head? ≠ some '"' := by
    intro r
    rw [head_replicate_succ_append 4089 'b' r]
    decide
  refine ⟨?_, ?_, ?_⟩
  · have e : ((Key.name.tag ++ List.replicate 4090 'b' ++ ['c', 'd']) ++ ['\n']).drop
        Key.name.tag.length = (List.replicate 4090 'b' ++ ['c', 'd']) ++ ['\n'] := by
      rw [List.append_assoc, List.append_assoc, List.drop_left, List.append_assoc]
    have h0 : ∀ c ∈ (List.replicate 4090 'b' ++ ['c', 'd']) ++ ['\n'], c ≠ Char.ofNat 0 :=
      no_nul_append _ _ (no_nul_append _ _ hb0 (by decide)) (by decide)
    rw [e, cstr_eq_self _ h0]
    exact unquote_plain_newline _ (hhead _) (not_mem_append _ _ _ hbn (by decide))
  · have hfull : '\n' ∉ Key.name.tag ++ List.replicate 4090 'b' :=
      not_mem_append _ _ _ (by decide) hbn
    have hval : unquote (cstr ((Key.name.tag ++ List.replicate 4090 'b').drop
        Key.name.tag.length)) = .ok (some (List.replicate 4090 'b')) := by
      rw [List.drop_left, cstr_eq_self _ hb0]
      have h := hhead []
      rw [List.append_nil] at h
      exact unquote_plain _ h hbn
    have hline := os_release_line_tagged Key.name (Key.name.tag ++ List.replicate 4090 'b')
      ⟨some "a".toList, none, none, none⟩ _ ⟨_, rfl⟩ hval
    have hcd : ∀ k : Key, ¬ k.tag <+: ['c', 'd'] ++ ['\n'] := by
      intro k
      cases k <;> decide
    have htail : ∀ st : OsRelease,
        os_release_run (['c', 'd'] ++ '\n' :: []) st = .ok st := by
      intro st
      rw [os_release_run_line ['c', 'd'] [] st (by decide) (by decide),
        os_release_line_other _ st hcd, bind_ok_eq, os_release_run_nil]
    have hfirst : os_release_line ("NAME=a".toList ++ ['\n']) all_null =
        .ok ⟨some "a".toList, none, none, none⟩ := by decide
    have hlen : (Key.name.tag ++ List.replicate 4090 'b').length = 4095 := by
      rw [List.length_append, List.length_replicate]
      rfl
    have e : "NAME=a\n".toList ++
        ((Key.name.tag ++ List.replicate 4090 'b' ++ ['c', 'd']) ++ ['\n']) =
        "NAME=a".toList ++ '\n' ::
          ((Key.name.tag ++ List.replicate 4090 'b') ++ (['c', 'd'] ++ '\n' :: [])) := by
      rw [List.append_assoc (Key.name.tag ++ List.replicate 4090 'b')]
      rfl
    apply os_release_of_run
    rw [e, os_release_run_line _ _ all_null (by decide) (by decide), hfirst, bind_ok_eq,
      os_release_run_full _ _ _ hfull hlen, hline, bind_ok_eq, htail]
    rfl
  · intro h
    have hl := congrArg List.length h
    rw [List.length_append, List.length_replicate] at hl
    simp at hl

/-- Counterexample to C6 as stated: the content is one line, `NAME=` and a
value that starts with a double quote and holds no other one, yet the name
is `foo`, not absent: the value goes on for more than the 4095 characters
`fgets` returns, and its next call returns a buffer that begins with `NAME=`. -/
theorem os_release_long_unmatched_quote :
    ('"' :: (List.replicate 4089 'x' ++ "NAME=foo".toList)).head? = some '"' ∧
    '"' ∉ ('"' :: (List.replicate 4089 'x' ++ "NAME=foo".toList)).tail ∧
    '\n' ∉ Key.name.tag ++ '"' :: (List.replicate 4089 'x' ++ "NAME=foo".toList) ∧
    unquote ('"' :: (List.replicate 4089 'x' ++ "NAME=foo".toList) ++ ['\n']) = .ok none ∧
    os_release (.ok ((Key.name.tag ++ '"' :: (List.replicate 4089 'x' ++ "NAME=foo".toList))
      ++ ['\n'])) all_null = .ok (0, ⟨some "foo".toList, none, none, none⟩) := by
  have hxq : '"' ∉ List.replicate 4089 'x' := not_mem_replicate 4089 'x' '"' (by decide)
  have hxn : '\n' ∉ List.replicate 4089 'x' := not_mem_replicate 4089 'x' '\n' (by decide)
  have hq0 : ∀ c ∈ ['"'] ++ List.replicate 4089 'x', c ≠ Char.ofNat 0 :=
    no_nul_append _ _ (by decide) (no_nul_replicate 4089 'x' (by decide))
  refine ⟨rfl, not_mem_append _ _ _ hxq (by decide), ?_, ?_, ?_⟩
  · exact not_mem_append _ _ _ (by decide)
      (not_mem_append '\n' ['"'] _ (by decide) (not_mem_append _ _ _ hxn (by decide)))
  · exact unquote_unmatched _
      (not_mem_append _ _ _ (not_mem_append _ _ _ hxq (by decide)) (by decide))
  · have hfull : '\n' ∉ Key.name.tag ++ '"' :: List.replicate 4089 'x' :=
      not_mem_append _ _ _ (by decide) (not_mem_append '\n' ['"'] _ (by decide) hxn)
    have hval : unquote (cstr ((Key.name.tag ++ '"' :: List.replicate 4089 'x').drop
        Key.name.tag.length)) = .ok none := by
      rw [List.drop_left, cstr_eq_self ('"' :: List.replicate 4089 'x') hq0]
      exact unquote_unmatched _ hxq
    have hline := os_release_line_tagged Key.name
      (Key.name.tag ++ '"' :: List.replicate 4089 'x') all_null _ ⟨_, rfl⟩ hval
    have hlen : (Key.name.tag ++ '"' :: List.replicate 4089 'x').length = 4095 := by
      rw [List.length_append, List.length_cons, List.length_replicate]
      rfl
    have e : (Key.name.tag ++ '"' :: (List.replicate 4089 'x' ++ "NAME=foo".toList))
        ++ ['\n'] =
        (Key.name.tag ++ '"' :: List.replicate 4089 'x') ++ "NAME=foo\n".toList := by
      have e1 : "NAME=foo\n".toList = "NAME=foo".toList ++ ['\n'] := by decide
      rw [e1]
      simp only [List.append_assoc, List.cons_append]
    apply os_release_of_run
    rw [e, os_release_run_full _ _ _ hfull hlen, hline, bind_ok_eq]
    decide

end Machine
